import Mathlib

/-!
# Flower addon: partition assignment, registration policy, value merging

A shallow embedding of `pkg/addon/addon.go`, `pkg/addon/values.go` and
`pkg/addon/registration.go`.

Modelling conventions.

* A Go `string` is a Lean `String`.  Go compares strings byte-wise; on valid
  UTF-8 (Kubernetes object names and namespaces are ASCII) the byte-wise
  lexicographic order coincides with the lexicographic order on code points,
  which is the order `<` on `String`.
* A Go `int` is a `Nat`: every integer the embedded code produces is a slice
  index or a slice length, so it is non-negative and far below `2^63`.
* A Go `error` is an `Option String` (`none` is `nil`).
* The result of `hubClient.List` is an explicit argument of type
  `Except String ManagedClusterAddOnList`: the embedded functions are pure
  functions of what the client returned.
-/

namespace FlowerAddon

set_option linter.unusedVariables false

/-! ## Constants of `addon.go` -/

/-- AddonName is the name of the flower addon. -/
def AddonName : String := "flower-addon"

/-- FlowerCASignerName is the signer name for Flower CA. -/
def FlowerCASignerName : String := "flower.io/flower-ca"

/-- FlowerCASecretName is the name of the CA signing secret. -/
def FlowerCASecretName : String := "flower-ca-signing-secret"

/-- FlowerCASecretNamespace is the namespace of the CA signing secret. -/
def FlowerCASecretNamespace : String := "open-cluster-management"

/-- FlowerAddonNamespace is the namespace for flower addon on managed clusters. -/
def FlowerAddonNamespace : String := "flower-addon"

/-- DefaultSuperLinkAddress is the default SuperLink address. -/
def DefaultSuperLinkAddress : String := "superlink.flower-system.svc.cluster.local"

/-! ## Kubernetes objects, reduced to the fields the code reads -/

/-- The fields of `addonv1alpha1.ManagedClusterAddOn` read by the code:
`ObjectMeta.Name` and `ObjectMeta.Namespace`. -/
structure ManagedClusterAddOn where
  Name : String
  Namespace : String
  deriving DecidableEq, Repr

/-- The `Items` of an `addonv1alpha1.ManagedClusterAddOnList`. -/
abbrev ManagedClusterAddOnList := List ManagedClusterAddOn

/-- The field of `clusterv1.ManagedCluster` read by the code: `ObjectMeta.Name`. -/
structure ManagedCluster where
  Name : String
  deriving DecidableEq, Repr

/-- FlowerAddonValues contains values for rendering the agent manifests. -/
structure FlowerAddonValues where
  ClusterName : String
  SuperLinkAddress : String
  SuperLinkPort : Nat
  PartitionID : Nat
  NumPartitions : Nat
  Image : String
  ImagePullPolicy : String
  deriving DecidableEq, Repr

/-- DefaultFlowerAddonValues returns the default values (`ClusterName` is
left at Go's zero value, the empty string). -/
def DefaultFlowerAddonValues : FlowerAddonValues :=
  { ClusterName := ""
    SuperLinkAddress := DefaultSuperLinkAddress
    SuperLinkPort := 9092
    PartitionID := 0
    NumPartitions := 1
    Image := "flwr/supernode:1.15.0"
    ImagePullPolicy := "IfNotPresent" }

/-! ## `values.go`: partition calculation -/

/-- The first loop of `calculatePartition`: walk `addonList.Items` in order
and append the namespace of every item whose name is `AddonName`. -/
def collectFlowerClusters (items : ManagedClusterAddOnList) : List String :=
  items.foldl
    (fun flowerClusters addon =>
      if addon.Name = AddonName then flowerClusters ++ [addon.Namespace] else flowerClusters)
    []

/-- Go's `sort.Strings`: sorts a slice of strings in increasing order.  Its
result is the sorted rearrangement of its input, which for strings is unique
(`sortStrings_unique`), so any sorting algorithm is a faithful model. -/
def sortStrings (xs : List String) : List String :=
  xs.insertionSort (fun a b => a ≤ b)

/-- The second loop of `calculatePartition`, started at index `i`:
`partitionID` is the index of the first element equal to `clusterName`
(then `break`), and keeps its initial value `0` when there is none. -/
def findPartitionID (clusterName : String) : Nat → List String → Nat
  | _, [] => 0
  | i, name :: rest =>
    if name = clusterName then i else findPartitionID clusterName (i + 1) rest

/-- The three results of `calculatePartition`. -/
structure PartitionResult where
  partitionID : Nat
  numPartitions : Nat
  err : Option String
  deriving DecidableEq, Repr

/-- calculatePartition calculates the partition ID and total partitions for a
cluster.  `listed` is what `hubClient.List(ctx, addonList)` produced. -/
def calculatePartition (listed : Except String ManagedClusterAddOnList)
    (clusterName : String) : PartitionResult :=
  match listed with
  | .error e => ⟨0, 1, some e⟩
  | .ok items =>
    let flowerClusters := sortStrings (collectFlowerClusters items)
    ⟨findPartitionID clusterName 0 flowerClusters, flowerClusters.length, none⟩

/-- GetDefaultValues returns the default values for rendering agent
manifests (the struct handed to `addonfactory.JsonStructToValues`). -/
def GetDefaultValues (cluster : ManagedCluster) : FlowerAddonValues :=
  { DefaultFlowerAddonValues with ClusterName := cluster.Name }

/-- GetValuesWithPartition returns values with partition information
calculated.  The result is the `FlowerAddonValues` struct handed to
`addonfactory.JsonStructToValues`. -/
def GetValuesWithPartition (listed : Except String ManagedClusterAddOnList)
    (cluster : ManagedCluster) : FlowerAddonValues :=
  let values := { DefaultFlowerAddonValues with ClusterName := cluster.Name }
  let r := calculatePartition listed cluster.Name
  match r.err with
  | some _ => values
  | none => { values with PartitionID := r.partitionID, NumPartitions := r.numPartitions }

/-- A `ManagedClusterAddOn` named `AddonName` in namespace `ns`. -/
def flowerAddonIn (ns : String) : ManagedClusterAddOn := ⟨AddonName, ns⟩

/-! ## `values.go`: merging value maps -/

/-- The Go type `addonfactory.Values`, a `map[string]interface{}`, with `V`
for the values stored: a finite list of key/value entries whose keys are
pairwise distinct.  The order of `entries` is the order in which `range`
visits the map; Go leaves that order unspecified, and nothing proved below
depends on it. -/
abbrev Values (V : Type) := AList (fun _ : String => V)

/-- MergeValues merges multiple value maps, with later maps taking precedence:
`result := make(Values)`, then for every map in order and every entry `k, v`
of it, `result[k] = v`. -/
def MergeValues {V : Type} (valueMaps : List (Values V)) : Values V :=
  valueMaps.foldl
    (fun result values =>
      values.entries.foldl (fun result kv => result.insert kv.1 kv.2) result)
    ∅

/-! ## `addon.go`: owner reference -/

/-- The fields of `metav1.OwnerReference` set by the code (`types.UID` is a
string type). -/
structure OwnerReference where
  APIVersion : String
  Kind : String
  Name : String
  UID : String
  deriving DecidableEq, Repr

/-- ManagedClusterAddOnOwnerReference returns the owner reference for
ManagedClusterAddOn.  The source writes the string literal `"uid"` in the
`UID` field; the parameter `uid` is not read. -/
def ManagedClusterAddOnOwnerReference (name uid : String) : OwnerReference :=
  { APIVersion := "addon.open-cluster-management.io/v1alpha1"
    Kind := "ManagedClusterAddOn"
    Name := name
    UID := "uid" }

/-! ## `registration.go`: registration policy -/

/-- The fields of `addonv1alpha1.Subject` set by the code. -/
structure Subject where
  User : String
  Groups : List String
  deriving DecidableEq, Repr

/-- The fields of `addonv1alpha1.RegistrationConfig` set by the code. -/
structure RegistrationConfig where
  SignerName : String
  Subject : Subject
  deriving DecidableEq, Repr

/-- A `certificatesv1.CertificateSigningRequestSpec`: the signer name the code
reads, and the rest of the request's content (PEM bytes, usages, requesting
user). -/
structure CertificateSigningRequestSpec where
  Request : List Nat
  SignerName : String
  Usages : List String
  Username : String
  deriving DecidableEq, Repr

/-- A `certificatesv1.CertificateSigningRequest`. -/
structure CertificateSigningRequest where
  Name : String
  Spec : CertificateSigningRequestSpec
  deriving DecidableEq, Repr

/-- The four callbacks of `agent.RegistrationOption` that the code fills in.
A Go result `(x, err)` is a pair whose second component is the error. -/
structure RegistrationOption where
  CSRConfigurations :
    ManagedCluster → ManagedClusterAddOn → List RegistrationConfig × Option String
  CSRApproveCheck : ManagedCluster → ManagedClusterAddOn → CertificateSigningRequest → Bool
  CSRSign :
    ManagedCluster → ManagedClusterAddOn → CertificateSigningRequest → List Nat × Option String
  AgentInstallNamespace : ManagedClusterAddOn → String × Option String

/-- NewRegistrationOption returns the registration option for the flower
addon.  `kubeClient` is not used by any callback. -/
def NewRegistrationOption {K : Type} (kubeClient : K) : RegistrationOption :=
  { CSRConfigurations := fun cluster addon =>
      ([{ SignerName := FlowerCASignerName
          Subject :=
            { User := "system:flower:cluster:" ++ cluster.Name
              Groups := ["system:flower:clusters"] } }],
       none)
    -- Auto-approve CSRs for flower addon
    CSRApproveCheck := fun cluster addon csr => true
    -- The actual signing is handled by the custom signer controller
    CSRSign := fun cluster addon csr => ([], none)
    AgentInstallNamespace := fun addon => (FlowerAddonNamespace, none) }

/-- GetCustomSignerSecretName returns the secret name containing the CA for
custom signing. -/
def GetCustomSignerSecretName : String := FlowerCASecretName

/-- GetCustomSignerSecretNamespace returns the namespace of the CA secret. -/
def GetCustomSignerSecretNamespace : String := FlowerCASecretNamespace

/-- IsValidFlowerCSR validates if the CSR is a valid flower addon CSR. -/
def IsValidFlowerCSR (csr : CertificateSigningRequest) : Bool :=
  if csr.Spec.SignerName ≠ FlowerCASignerName then false else true

/-- The signer configuration. -/
structure SignerConfig where
  CASecretName : String
  CASecretNamespace : String
  SignerName : String
  deriving DecidableEq, Repr

/-- NewSignerConfig returns a new signer configuration for flower CA. -/
def NewSignerConfig : SignerConfig :=
  { CASecretName := FlowerCASecretName
    CASecretNamespace := FlowerCASecretNamespace
    SignerName := FlowerCASignerName }

/-! ## Auxiliary definitions and concrete inputs -/

/-- The number of collected names strictly below `c`. -/
def rankOf (c : String) (names : List String) : Nat :=
  names.countP (fun x => decide (x < c))

/-- A three-member snapshot, listed out of order, with one unrelated addon. -/
def snapshotABC : ManagedClusterAddOnList :=
  [flowerAddonIn "cluster-b", ⟨"other-addon", "cluster-0"⟩, flowerAddonIn "cluster-a",
    flowerAddonIn "cluster-c"]

/-- The snapshot with "cluster-a" and "cluster-c" enrolled. -/
def snapshotAC : ManagedClusterAddOnList :=
  [flowerAddonIn "cluster-a", flowerAddonIn "cluster-c"]

/-- The map with the given entries (for a key listed twice, the first entry). -/
def valuesOf {V : Type} (entries : List (String × V)) : Values V :=
  (entries.map (fun p => (⟨p.1, p.2⟩ : Sigma (fun _ : String => V)))).toAList

/-- A CSR addressed to another signer. -/
def foreignCSR : CertificateSigningRequest :=
  { Name := "csr-1"
    Spec :=
      { Request := []
        SignerName := "kubernetes.io/kube-apiserver-client"
        Usages := ["client auth"]
        Username := "system:serviceaccount:default:someone" } }

/-! ## Facts about sorted lists of strings -/

/-- In a sorted list the position of a member is the number of elements
strictly below it. -/
lemma indexOf_eq_countP_lt_of_sorted (l : List String) (hs : l.Sorted (fun a b => a ≤ b))
    (c : String) (hc : c ∈ l) : l.indexOf c = l.countP (fun x => decide (x < c)) := by
  induction l with
  | nil => simp at hc
  | cons a t ih =>
    have hat : ∀ b ∈ t, a ≤ b := List.rel_of_sorted_cons hs
    have hst : t.Sorted (fun a b => a ≤ b) := hs.of_cons
    by_cases hac : a = c
    · subst hac
      have hz : t.countP (fun x => decide (x < a)) = 0 := by
        rw [List.countP_eq_zero]
        intro b hb
        simpa [-String.lt_iff_toList_lt] using hat b hb
      rw [List.indexOf_cons_self, List.countP_cons, hz]
      simp [-String.lt_iff_toList_lt]
    · have hct : c ∈ t := by
        rcases List.mem_cons.1 hc with h | h
        · exact absurd h.symm hac
        · exact h
      have hlt : a < c := lt_of_le_of_ne (hat c hct) hac
      rw [List.indexOf_cons_ne _ hac, ih hst hct, List.countP_cons]
      simp [-String.lt_iff_toList_lt, hlt]

/-- A sorted list is determined by its elements: two sorted rearrangements of
one another are equal. -/
lemma sorted_perm_unique {l₁ l₂ : List String} (hp : l₁.Perm l₂)
    (h₁ : l₁.Sorted (fun a b => a ≤ b)) (h₂ : l₂.Sorted (fun a b => a ≤ b)) : l₁ = l₂ :=
  List.eq_of_perm_of_sorted hp h₁ h₂

/-! ## Facts about the pieces of `calculatePartition` -/

/-- The loop that collects namespaces, started from any accumulator. -/
lemma collect_foldl (items : ManagedClusterAddOnList) (acc : List String) :
    items.foldl
      (fun flowerClusters addon =>
        if addon.Name = AddonName then flowerClusters ++ [addon.Namespace] else flowerClusters)
      acc
    = acc ++ (items.filter (fun a => decide (a.Name = AddonName))).map (fun a => a.Namespace) := by
  induction items generalizing acc with
  | nil => simp
  | cons a t ih =>
    rw [List.foldl_cons, ih]
    by_cases h : a.Name = AddonName
    · simp [h, List.filter_cons]
    · simp [h, List.filter_cons]

/-- The collected names are the namespaces of the items named `AddonName`, in
listing order. -/
lemma collectFlowerClusters_eq (items : ManagedClusterAddOnList) :
    collectFlowerClusters items
      = (items.filter (fun a => decide (a.Name = AddonName))).map (fun a => a.Namespace) := by
  unfold collectFlowerClusters
  rw [collect_foldl]
  simp

lemma collectFlowerClusters_perm {items items' : ManagedClusterAddOnList}
    (h : items.Perm items') :
    (collectFlowerClusters items).Perm (collectFlowerClusters items') := by
  rw [collectFlowerClusters_eq, collectFlowerClusters_eq]
  exact (h.filter _).map _

lemma sortStrings_sorted (xs : List String) : (sortStrings xs).Sorted (fun a b => a ≤ b) :=
  List.sorted_insertionSort _ xs

lemma sortStrings_perm (xs : List String) : (sortStrings xs).Perm xs :=
  List.perm_insertionSort _ xs

/-- Any sorted rearrangement of `xs` is `sortStrings xs`: the model of
`sort.Strings` does not depend on the sorting algorithm. -/
lemma sortStrings_unique (xs ys : List String) (hp : ys.Perm xs)
    (hs : ys.Sorted (fun a b => a ≤ b)) : ys = sortStrings xs :=
  sorted_perm_unique (hp.trans (sortStrings_perm xs).symm) hs (sortStrings_sorted xs)

lemma sortStrings_congr {xs ys : List String} (hp : xs.Perm ys) :
    sortStrings xs = sortStrings ys :=
  sortStrings_unique ys (sortStrings xs) ((sortStrings_perm xs).trans hp) (sortStrings_sorted xs)

lemma sortStrings_length (xs : List String) : (sortStrings xs).length = xs.length :=
  (sortStrings_perm xs).length_eq

lemma mem_sortStrings {xs : List String} {c : String} : c ∈ sortStrings xs ↔ c ∈ xs :=
  (sortStrings_perm xs).mem_iff

/-- The search loop returns `i` plus the position of the first occurrence,
and `0` when there is none. -/
lemma findPartitionID_eq (c : String) (i : Nat) (l : List String) :
    findPartitionID c i l = if c ∈ l then i + l.indexOf c else 0 := by
  induction l generalizing i with
  | nil => simp [findPartitionID]
  | cons a t ih =>
    unfold findPartitionID
    by_cases h : a = c
    · subst h
      simp
    · have h' : ¬ c = a := fun e => h e.symm
      rw [if_neg h, ih, List.indexOf_cons_ne _ h]
      by_cases hm : c ∈ t
      · simp [hm]
        omega
      · simp [hm, h']

lemma findPartitionID_sortStrings (c : String) (xs : List String) (hc : c ∈ xs) :
    findPartitionID c 0 (sortStrings xs) = rankOf c xs := by
  rw [findPartitionID_eq, if_pos (mem_sortStrings.2 hc), Nat.zero_add,
    indexOf_eq_countP_lt_of_sorted _ (sortStrings_sorted xs) c (mem_sortStrings.2 hc)]
  exact (sortStrings_perm xs).countP_eq _

lemma findPartitionID_sortStrings_indexOf (c : String) (xs : List String) (hc : c ∈ xs) :
    findPartitionID c 0 (sortStrings xs) = (sortStrings xs).indexOf c := by
  rw [findPartitionID_eq, if_pos (mem_sortStrings.2 hc), Nat.zero_add]

lemma findPartitionID_sortStrings_of_not_mem (c : String) (xs : List String) (hc : c ∉ xs) :
    findPartitionID c 0 (sortStrings xs) = 0 := by
  rw [findPartitionID_eq, if_neg (fun h => hc (mem_sortStrings.1 h))]

/-- On a snapshot that lists successfully, `calculatePartition` in closed
form. -/
lemma calculatePartition_ok (items : ManagedClusterAddOnList) (clusterName : String) :
    calculatePartition (.ok items) clusterName
      = ⟨findPartitionID clusterName 0 (sortStrings (collectFlowerClusters items)),
          (collectFlowerClusters items).length, none⟩ := by
  simp [calculatePartition, sortStrings_length]

lemma mem_collectFlowerClusters {items : ManagedClusterAddOnList} {ns : String} :
    ns ∈ collectFlowerClusters items ↔ ∃ a ∈ items, a.Name = AddonName ∧ a.Namespace = ns := by
  rw [collectFlowerClusters_eq]
  simp [List.mem_map, List.mem_filter, and_assoc]

lemma collect_snapshotABC :
    collectFlowerClusters snapshotABC = ["cluster-b", "cluster-a", "cluster-c"] := by
  decide

lemma clusterA_lt_clusterB : "cluster-a" < "cluster-b" := by
  rw [String.lt_iff_toList_lt]
  decide

lemma clusterB_lt_clusterC : "cluster-b" < "cluster-c" := by
  rw [String.lt_iff_toList_lt]
  decide

lemma clusterA_lt_clusterC : "cluster-a" < "cluster-c" :=
  lt_trans clusterA_lt_clusterB clusterB_lt_clusterC

/-! ## Partition assignment: the claims -/

/-- C1. On a successfully listed snapshot the enrolled names are exactly the
namespaces of the items named "flower-addon".  When they are pairwise distinct
and the target is one of them, `calculatePartition` returns a nil error, a
partition ID that is the position of the target in the sorted enrolled names,
which is the number of enrolled names strictly smaller than the target, and a
partition count equal to the size of the enrolled set. -/
theorem calculatePartition_rank_of_enrolled (items : ManagedClusterAddOnList)
    (clusterName : String)
    (hdistinct : (collectFlowerClusters items).Nodup)
    (henrolled : clusterName ∈ collectFlowerClusters items) :
    (∀ ns, ns ∈ collectFlowerClusters items
        ↔ ∃ a ∈ items, a.Name = "flower-addon" ∧ a.Namespace = ns) ∧
    (calculatePartition (.ok items) clusterName).err = none ∧
    (∃ sorted : List String,
        sorted.Perm (collectFlowerClusters items) ∧ sorted.Sorted (fun a b => a < b) ∧
        sorted[(calculatePartition (.ok items) clusterName).partitionID]? = some clusterName) ∧
    (calculatePartition (.ok items) clusterName).partitionID
      = ((collectFlowerClusters items).filter (fun x => decide (x < clusterName))).length ∧
    (calculatePartition (.ok items) clusterName).numPartitions
      = (collectFlowerClusters items).toFinset.card := by
  have hmem : clusterName ∈ sortStrings (collectFlowerClusters items) :=
    mem_sortStrings.2 henrolled
  refine ⟨fun ns => mem_collectFlowerClusters, ?_, ?_, ?_, ?_⟩
  · rw [calculatePartition_ok]
  · refine ⟨sortStrings (collectFlowerClusters items), sortStrings_perm _, ?_, ?_⟩
    · have hnd : (sortStrings (collectFlowerClusters items)).Nodup :=
        (sortStrings_perm _).nodup_iff.2 hdistinct
      exact ((sortStrings_sorted _).lt_of_le hnd)
    · rw [calculatePartition_ok]
      simp only
      rw [findPartitionID_sortStrings_indexOf _ _ henrolled]
      rw [← List.get?_eq_getElem?]
      exact List.indexOf_get? hmem
  · rw [calculatePartition_ok]
    simp only
    rw [findPartitionID_sortStrings _ _ henrolled, rankOf, List.countP_eq_length_filter]
  · rw [calculatePartition_ok, List.toFinset_card_of_nodup hdistinct]

/-- C1 at the snapshot with "cluster-b", "cluster-a" and "cluster-c" enrolled:
partition 0 of 3 for "cluster-a" and partition 2 of 3 for "cluster-c". -/
theorem calculatePartition_rank_of_enrolled_witness :
    (collectFlowerClusters snapshotABC).Nodup ∧
    "cluster-a" ∈ collectFlowerClusters snapshotABC ∧
    "cluster-c" ∈ collectFlowerClusters snapshotABC ∧
    calculatePartition (.ok snapshotABC) "cluster-a" = ⟨0, 3, none⟩ ∧
    calculatePartition (.ok snapshotABC) "cluster-c" = ⟨2, 3, none⟩ := by
  have hnd : (collectFlowerClusters snapshotABC).Nodup := by decide
  have ha : "cluster-a" ∈ collectFlowerClusters snapshotABC := by decide
  have hc : "cluster-c" ∈ collectFlowerClusters snapshotABC := by decide
  have hba : ¬ "cluster-b" < "cluster-a" := not_lt_of_lt clusterA_lt_clusterB
  have hca : ¬ "cluster-c" < "cluster-a" := not_lt_of_lt clusterA_lt_clusterC
  obtain ⟨-, ea, -, pa, na⟩ := calculatePartition_rank_of_enrolled snapshotABC "cluster-a" hnd ha
  obtain ⟨-, ec, -, pc, nc⟩ := calculatePartition_rank_of_enrolled snapshotABC "cluster-c" hnd hc
  have hcard : (collectFlowerClusters snapshotABC).toFinset.card = 3 := by decide
  rw [hcard] at na nc
  rw [collect_snapshotABC] at pa pc
  have pa0 : (calculatePartition (.ok snapshotABC) "cluster-a").partitionID = 0 := by
    rw [pa]
    simp [-String.lt_iff_toList_lt, List.filter_cons, hba, hca]
  have pc2 : (calculatePartition (.ok snapshotABC) "cluster-c").partitionID = 2 := by
    rw [pc]
    simp [-String.lt_iff_toList_lt, List.filter_cons, clusterB_lt_clusterC, clusterA_lt_clusterC]
  refine ⟨hnd, ha, hc, ?_, ?_⟩
  · cases h : calculatePartition (.ok snapshotABC) "cluster-a" with
    | mk p n e =>
      rw [h] at ea pa0 na
      simp only at ea pa0 na
      rw [ea, pa0, na]
  · cases h : calculatePartition (.ok snapshotABC) "cluster-c" with
    | mk p n e =>
      rw [h] at ec pc2 nc
      simp only at ec pc2 nc
      rw [ec, pc2, nc]

/-- C2. When the enrolled names of a snapshot are pairwise distinct, `n` being
their number, calling `calculatePartition` once per enrolled member against
that snapshot maps the enrolled members one-to-one onto the partition IDs
`0, ..., n-1`, and every enrolled member gets `partitionID < numPartitions`.
(This holds for the empty snapshot too, where there is no member.) -/
theorem calculatePartition_ids_bijective (items : ManagedClusterAddOnList)
    (hdistinct : (collectFlowerClusters items).Nodup) :
    Set.BijOn (fun c => (calculatePartition (.ok items) c).partitionID)
      {c | c ∈ collectFlowerClusters items}
      {i | i < (collectFlowerClusters items).length} ∧
    ((collectFlowerClusters items).toFinset.image
        (fun c => (calculatePartition (.ok items) c).partitionID)
      = Finset.range (collectFlowerClusters items).length) ∧
    (∀ c ∈ collectFlowerClusters items,
      (calculatePartition (.ok items) c).numPartitions = (collectFlowerClusters items).length ∧
      (calculatePartition (.ok items) c).partitionID
        < (calculatePartition (.ok items) c).numPartitions) := by
  have hnd : (sortStrings (collectFlowerClusters items)).Nodup :=
    (sortStrings_perm _).nodup_iff.2 hdistinct
  have hpid : ∀ c ∈ collectFlowerClusters items,
      (calculatePartition (.ok items) c).partitionID
        = (sortStrings (collectFlowerClusters items)).indexOf c := by
    intro c hc
    rw [calculatePartition_ok]
    exact findPartitionID_sortStrings_indexOf c _ hc
  have hlt : ∀ c ∈ collectFlowerClusters items,
      (calculatePartition (.ok items) c).partitionID < (collectFlowerClusters items).length := by
    intro c hc
    rw [hpid c hc, ← sortStrings_length]
    exact List.indexOf_lt_length.2 (mem_sortStrings.2 hc)
  have hinj : ∀ a ∈ collectFlowerClusters items, ∀ b ∈ collectFlowerClusters items,
      (calculatePartition (.ok items) a).partitionID
        = (calculatePartition (.ok items) b).partitionID → a = b := by
    intro a ha b hb hab
    rw [hpid a ha, hpid b hb] at hab
    exact (List.indexOf_inj (mem_sortStrings.2 ha) (mem_sortStrings.2 hb)).1 hab
  have hsurj : ∀ i, i < (collectFlowerClusters items).length →
      ∃ c ∈ collectFlowerClusters items, (calculatePartition (.ok items) c).partitionID = i := by
    intro i hi
    have hi' : i < (sortStrings (collectFlowerClusters items)).length := by
      rw [sortStrings_length]
      exact hi
    have hc : (sortStrings (collectFlowerClusters items))[i] ∈ collectFlowerClusters items :=
      mem_sortStrings.1 (List.getElem_mem hi')
    exact ⟨_, hc, by rw [hpid _ hc]; exact List.indexOf_getElem hnd i hi'⟩
  refine ⟨⟨fun c hc => hlt c hc, fun a ha b hb hab => hinj a ha b hb hab,
    fun i hi => ?_⟩, ?_, fun c hc => ⟨?_, ?_⟩⟩
  · obtain ⟨c, hc, hci⟩ := hsurj i hi
    exact ⟨c, hc, hci⟩
  · ext i
    simp only [Finset.mem_image, List.mem_toFinset, Finset.mem_range]
    constructor
    · rintro ⟨c, hc, rfl⟩
      exact hlt c hc
    · intro hi
      exact hsurj i hi
  · rw [calculatePartition_ok]
  · have h := hlt c hc
    rw [calculatePartition_ok] at h ⊢
    exact h

/-- C2 at the three-member snapshot. -/
theorem calculatePartition_ids_bijective_witness :
    (collectFlowerClusters snapshotABC).Nodup ∧
    Set.BijOn (fun c => (calculatePartition (.ok snapshotABC) c).partitionID)
      {c | c ∈ collectFlowerClusters snapshotABC}
      {i | i < (collectFlowerClusters snapshotABC).length} :=
  ⟨by decide, (calculatePartition_ids_bijective snapshotABC (by decide)).1⟩

/-- C3, against the claim: with "cluster-a" the only enrolled member, the
target "cluster-z" is not enrolled and `calculatePartition` returns partition
0 of 1 with a nil error. -/
theorem calculatePartition_not_enrolled_counterexample :
    collectFlowerClusters [flowerAddonIn "cluster-a"] = ["cluster-a"] ∧
    "cluster-z" ∉ collectFlowerClusters [flowerAddonIn "cluster-a"] ∧
    calculatePartition (.ok [flowerAddonIn "cluster-a"]) "cluster-z" = ⟨0, 1, none⟩ := by
  decide

/-- C3, amended. For every snapshot that lists successfully with at least
one enrolled member, and every target that is not among the enrolled names,
`calculatePartition` returns a nil error, partition ID 0 and the number of
enrolled names, which is at least 1, as partition count. -/
theorem calculatePartition_not_enrolled (items : ManagedClusterAddOnList) (clusterName : String)
    (hsome : collectFlowerClusters items ≠ [])
    (hnot : clusterName ∉ collectFlowerClusters items) :
    calculatePartition (.ok items) clusterName
      = ⟨0, (collectFlowerClusters items).length, none⟩ ∧
    1 ≤ (calculatePartition (.ok items) clusterName).numPartitions := by
  have hresult : calculatePartition (.ok items) clusterName
      = ⟨0, (collectFlowerClusters items).length, none⟩ := by
    rw [calculatePartition_ok, findPartitionID_sortStrings_of_not_mem _ _ hnot]
  refine ⟨hresult, ?_⟩
  rw [hresult]
  exact List.length_pos.2 hsome

/-- C3 amended, at the three-member snapshot and the target "cluster-z". -/
theorem calculatePartition_not_enrolled_witness :
    collectFlowerClusters snapshotABC ≠ [] ∧
    "cluster-z" ∉ collectFlowerClusters snapshotABC ∧
    calculatePartition (.ok snapshotABC) "cluster-z" = ⟨0, 3, none⟩ :=
  ⟨by decide, by decide,
    (calculatePartition_not_enrolled snapshotABC "cluster-z" (by decide) (by decide)).1⟩

/-- C4, at the failing input. A snapshot that lists successfully and has no
enrolled member yields partition count 0, which `GetValuesWithPartition`
writes into `NumPartitions`; only the path on which listing fails yields 1. -/
theorem calculatePartition_no_member_numPartitions_zero :
    collectFlowerClusters [⟨"other-addon", "cluster-a"⟩] = [] ∧
    calculatePartition (.ok [⟨"other-addon", "cluster-a"⟩]) "cluster-a" = ⟨0, 0, none⟩ ∧
    calculatePartition (.ok []) "cluster-a" = ⟨0, 0, none⟩ ∧
    (GetValuesWithPartition (.ok [⟨"other-addon", "cluster-a"⟩]) ⟨"cluster-a"⟩).NumPartitions = 0 ∧
    (GetValuesWithPartition (.ok []) ⟨"cluster-a"⟩).NumPartitions = 0 ∧
    calculatePartition (.error "list failed") "cluster-a" = ⟨0, 1, some "list failed"⟩ ∧
    (GetValuesWithPartition (.error "list failed") ⟨"cluster-a"⟩).NumPartitions = 1 := by
  decide

/-- The partition count on a snapshot that lists successfully is the number of
enrolled names, whatever the target. -/
lemma calculatePartition_numPartitions (items : ManagedClusterAddOnList) (clusterName : String) :
    (calculatePartition (.ok items) clusterName).numPartitions
      = (collectFlowerClusters items).length := by
  rw [calculatePartition_ok]

/-- C5. Monotonic locality. Let the enrolled names of `items'` be those of
`items` plus one more name `m`, in any listing order. Then every enrolled
member of `items` that sorts before `m` keeps its partition ID, every one that
sorts after `m` has it increased by exactly one, and the partition count
increases by exactly one. (Neither distinctness of the enrolled names nor
`m` being new is needed.) -/
theorem calculatePartition_monotonic_locality (items items' : ManagedClusterAddOnList)
    (m : String)
    (hadd : (collectFlowerClusters items').Perm (m :: collectFlowerClusters items)) :
    (∀ c ∈ collectFlowerClusters items, c < m →
      (calculatePartition (.ok items') c).partitionID
        = (calculatePartition (.ok items) c).partitionID) ∧
    (∀ c ∈ collectFlowerClusters items, m < c →
      (calculatePartition (.ok items') c).partitionID
        = (calculatePartition (.ok items) c).partitionID + 1) ∧
    (∀ c, (calculatePartition (.ok items') c).numPartitions
        = (calculatePartition (.ok items) c).numPartitions + 1) := by
  have hrank : ∀ c ∈ collectFlowerClusters items,
      (calculatePartition (.ok items') c).partitionID
        = (calculatePartition (.ok items) c).partitionID + if m < c then 1 else 0 := by
    intro c hc
    have hc' : c ∈ collectFlowerClusters items' :=
      hadd.mem_iff.2 (List.mem_cons_of_mem _ hc)
    rw [calculatePartition_ok, calculatePartition_ok]
    simp only
    rw [findPartitionID_sortStrings _ _ hc', findPartitionID_sortStrings _ _ hc, rankOf, rankOf,
      hadd.countP_eq, List.countP_cons]
    simp [-String.lt_iff_toList_lt]
  refine ⟨fun c hc hcm => ?_, fun c hc hmc => ?_, fun c => ?_⟩
  · rw [hrank c hc, if_neg (not_lt_of_lt hcm), Nat.add_zero]
  · rw [hrank c hc, if_pos hmc]
  · rw [calculatePartition_numPartitions, calculatePartition_numPartitions, hadd.length_eq]
    simp

/-- C5 at the snapshot with "cluster-a" and "cluster-c" enrolled, to which
"cluster-b" is added: "cluster-a" keeps its partition ID, "cluster-c" moves up
by one, and the partition count grows by one. -/
theorem calculatePartition_monotonic_locality_witness :
    (collectFlowerClusters snapshotABC).Perm ("cluster-b" :: collectFlowerClusters snapshotAC) ∧
    "cluster-a" < "cluster-b" ∧ "cluster-b" < "cluster-c" ∧
    (calculatePartition (.ok snapshotABC) "cluster-a").partitionID
      = (calculatePartition (.ok snapshotAC) "cluster-a").partitionID ∧
    (calculatePartition (.ok snapshotABC) "cluster-c").partitionID
      = (calculatePartition (.ok snapshotAC) "cluster-c").partitionID + 1 ∧
    (calculatePartition (.ok snapshotABC) "cluster-c").numPartitions
      = (calculatePartition (.ok snapshotAC) "cluster-c").numPartitions + 1 := by
  have hadd : (collectFlowerClusters snapshotABC).Perm
      ("cluster-b" :: collectFlowerClusters snapshotAC) := by decide
  have h := calculatePartition_monotonic_locality snapshotAC snapshotABC "cluster-b" hadd
  exact ⟨hadd, clusterA_lt_clusterB, clusterB_lt_clusterC,
    h.1 "cluster-a" (by decide) clusterA_lt_clusterB,
    h.2.1 "cluster-c" (by decide) clusterB_lt_clusterC, h.2.2 "cluster-c"⟩

/-- C6. Order independence: two snapshots whose item lists are rearrangements
of each other give the same partition ID, partition count and error for every
target. -/
theorem calculatePartition_order_independent (items items' : ManagedClusterAddOnList)
    (hperm : items.Perm items') (clusterName : String) :
    calculatePartition (.ok items) clusterName = calculatePartition (.ok items') clusterName := by
  have h := collectFlowerClusters_perm hperm
  rw [calculatePartition_ok, calculatePartition_ok, sortStrings_congr h, h.length_eq]

/-- C6 at the three-member snapshot and the same items listed in reverse. -/
theorem calculatePartition_order_independent_witness :
    snapshotABC.Perm snapshotABC.reverse ∧
    calculatePartition (.ok snapshotABC) "cluster-c"
      = calculatePartition (.ok snapshotABC.reverse) "cluster-c" :=
  ⟨(List.reverse_perm snapshotABC).symm,
    calculatePartition_order_independent snapshotABC snapshotABC.reverse
      (List.reverse_perm snapshotABC).symm "cluster-c"⟩

/-! ## Facts about `MergeValues` -/

/-- Writing a duplicate-free list of entries into `result`, one `result[k] = v`
at a time: a key of the list gets the list's value, any other key keeps its
value. -/
lemma lookup_foldl_insert {V : Type} (k : String)
    (l : List (Sigma (fun _ : String => V))) (hl : l.NodupKeys) (r : Values V) :
    (l.foldl (fun result kv => result.insert kv.1 kv.2) r).lookup k
      = (l.dlookup k).or (r.lookup k) := by
  induction l generalizing r with
  | nil => simp
  | cons e t ih =>
    obtain ⟨a, b⟩ := e
    have hnd := List.nodupKeys_cons.1 hl
    rw [List.foldl_cons, ih hnd.2]
    by_cases hk : k = a
    · subst hk
      have hnone : List.dlookup k t = none := List.dlookup_eq_none.2 hnd.1
      simp [hnone, AList.lookup_insert]
    · rw [List.dlookup_cons_ne _ _ hk, AList.lookup_insert_ne hk]

/-- The value `MergeValues` leaves under `k`, computed map by map. -/
lemma lookup_foldl_merge {V : Type} (k : String) (valueMaps : List (Values V)) (r : Values V) :
    (valueMaps.foldl
        (fun result values =>
          values.entries.foldl (fun result kv => result.insert kv.1 kv.2) result)
        r).lookup k
      = valueMaps.foldl (fun acc m => (m.lookup k).or acc) (r.lookup k) := by
  induction valueMaps generalizing r with
  | nil => simp
  | cons m t ih =>
    rw [List.foldl_cons, ih, lookup_foldl_insert k m.entries m.nodupKeys r]
    rfl

lemma lookup_MergeValues {V : Type} (k : String) (valueMaps : List (Values V)) :
    (MergeValues valueMaps).lookup k
      = valueMaps.foldl (fun acc m => (m.lookup k).or acc) none := by
  unfold MergeValues
  rw [lookup_foldl_merge]
  simp

lemma foldl_or_isSome {V : Type} (k : String) (valueMaps : List (Values V)) (acc : Option V) :
    (valueMaps.foldl (fun acc m => (m.lookup k).or acc) acc).isSome
      ↔ acc.isSome ∨ ∃ m ∈ valueMaps, k ∈ m := by
  induction valueMaps generalizing acc with
  | nil => simp
  | cons m t ih =>
    rw [List.foldl_cons, ih]
    by_cases hm : k ∈ m
    · obtain ⟨v, hv⟩ := Option.isSome_iff_exists.1 (AList.lookup_isSome.2 hm)
      simp [hv, hm]
    · have hv : m.lookup k = none := AList.lookup_eq_none.2 hm
      simp [hv, hm]

lemma foldl_or_of_not_mem {V : Type} (k : String) (valueMaps : List (Values V))
    (h : ∀ m ∈ valueMaps, k ∉ m) (acc : Option V) :
    valueMaps.foldl (fun acc m => (m.lookup k).or acc) acc = acc := by
  induction valueMaps generalizing acc with
  | nil => simp
  | cons m t ih =>
    have hv : m.lookup k = none := AList.lookup_eq_none.2 (h m (List.mem_cons_self _ _))
    rw [List.foldl_cons, hv, ih (fun m' hm' => h m' (List.mem_cons_of_mem _ hm'))]
    simp

/-- C8. `MergeValues` is a last-writer-wins union. A key is in the result
exactly when it is in at least one input map, and its value is then the one
of the last map of the sequence that contains it; with no maps the result is
the empty map; and merging `{a:1, b:2}` with `{b:3, c:4}` gives
`{a:1, b:3, c:4}`. -/
theorem MergeValues_last_writer_wins {V : Type} (valueMaps : List (Values V)) (k : String) :
    (k ∈ MergeValues valueMaps ↔ ∃ m ∈ valueMaps, k ∈ m) ∧
    (∀ (before : List (Values V)) (m : Values V) (after : List (Values V)),
      valueMaps = before ++ m :: after → k ∈ m → (∀ m' ∈ after, k ∉ m') →
      (MergeValues valueMaps).lookup k = m.lookup k) ∧
    MergeValues ([] : List (Values V)) = ∅ ∧
    (∀ key : String,
      (MergeValues [valuesOf [("a", 1), ("b", 2)], valuesOf [("b", 3), ("c", 4)]]).lookup key
        = (valuesOf [("a", 1), ("b", 3), ("c", 4)]).lookup key) ∧
    (MergeValues [valuesOf [("a", 1), ("b", 2)], valuesOf [("b", 3), ("c", 4)]]).entries.Perm
      (valuesOf [("a", 1), ("b", 3), ("c", 4)]).entries := by
  have hperm :
      (MergeValues [valuesOf [("a", 1), ("b", 2)], valuesOf [("b", 3), ("c", 4)]]).entries.Perm
        (valuesOf [("a", 1), ("b", 3), ("c", 4)]).entries := by
    decide
  refine ⟨?_, ?_, rfl, fun key => AList.perm_lookup hperm, hperm⟩
  · rw [← AList.lookup_isSome, lookup_MergeValues, foldl_or_isSome]
    simp
  · intro before m after hsplit hm hafter
    obtain ⟨v, hv⟩ := Option.isSome_iff_exists.1 (AList.lookup_isSome.2 hm)
    rw [lookup_MergeValues, hsplit, List.foldl_append, List.foldl_cons,
      foldl_or_of_not_mem k after hafter, hv]
    simp

/-! ## Registration policy and owner reference: the claims -/

/-- C7, against the claim: a CSR whose signer name is not
"flower.io/flower-ca", which `IsValidFlowerCSR` refuses, passes the
`CSRApproveCheck` callback. -/
theorem CSRApproveCheck_foreign_signer_counterexample :
    foreignCSR.Spec.SignerName ≠ FlowerCASignerName ∧
    IsValidFlowerCSR foreignCSR = false ∧
    (NewRegistrationOption ()).CSRApproveCheck ⟨"cluster-a"⟩ (flowerAddonIn "cluster-a")
      foreignCSR = true := by
  decide

/-- C7, amended. The `CSRApproveCheck` callback approves every CSR, whatever
the cluster, the addon, the signer name and the rest of the CSR are; the
signer-name test is `IsValidFlowerCSR`, which accepts a CSR exactly when its
signer name is "flower.io/flower-ca" and which the callback does not consult. -/
theorem CSRApproveCheck_approves_every_csr {K : Type} (kubeClient : K)
    (cluster : ManagedCluster) (addon : ManagedClusterAddOn) (csr : CertificateSigningRequest) :
    (NewRegistrationOption kubeClient).CSRApproveCheck cluster addon csr = true ∧
    (IsValidFlowerCSR csr = true ↔ csr.Spec.SignerName = "flower.io/flower-ca") := by
  refine ⟨rfl, ?_⟩
  unfold IsValidFlowerCSR FlowerCASignerName
  by_cases h : csr.Spec.SignerName = "flower.io/flower-ca"
  · simp [h]
  · simp [h]

/-- C9. For every cluster and addon, the `CSRConfigurations` callback returns
no error and exactly one registration config: signer name
"flower.io/flower-ca", user "system:flower:cluster:" followed by the cluster
name, and the single group "system:flower:clusters". The result depends only
on the cluster name. -/
theorem CSRConfigurations_of_cluster {K : Type} (kubeClient : K) (cluster : ManagedCluster)
    (addon : ManagedClusterAddOn) :
    (NewRegistrationOption kubeClient).CSRConfigurations cluster addon
      = ([{ SignerName := "flower.io/flower-ca"
            Subject :=
              { User := "system:flower:cluster:" ++ cluster.Name
                Groups := ["system:flower:clusters"] } }],
          none) ∧
    FlowerCASignerName = "flower.io/flower-ca" ∧
    (∀ (cluster' : ManagedCluster) (addon' : ManagedClusterAddOn),
      cluster'.Name = cluster.Name →
      (NewRegistrationOption kubeClient).CSRConfigurations cluster' addon'
        = (NewRegistrationOption kubeClient).CSRConfigurations cluster addon) ∧
    (NewRegistrationOption kubeClient).CSRConfigurations ⟨"cluster-a"⟩ addon
      = ([⟨"flower.io/flower-ca", ⟨"system:flower:cluster:cluster-a",
            ["system:flower:clusters"]⟩⟩], none) := by
  refine ⟨rfl, rfl, fun cluster' addon' h => ?_, rfl⟩
  simp [NewRegistrationOption, h]

/-- C10, at the failing input. The owner reference built for the name
"flower-addon" and the UID "0b2c4e5a-77d1" carries the literal "uid" in its
`UID` field, not the UID passed in. -/
theorem ManagedClusterAddOnOwnerReference_uid_is_literal :
    ManagedClusterAddOnOwnerReference "flower-addon" "0b2c4e5a-77d1"
      = { APIVersion := "addon.open-cluster-management.io/v1alpha1"
          Kind := "ManagedClusterAddOn"
          Name := "flower-addon"
          UID := "uid" } ∧
    (ManagedClusterAddOnOwnerReference "flower-addon" "0b2c4e5a-77d1").UID ≠ "0b2c4e5a-77d1" := by
  decide

end FlowerAddon
